import Mathlib

/-!
Shallow embedding of `src/main.rs` of the `decay` mail-archiving tool.

The tool scans a maildir, decides per message whether it is old enough to
retire (via `Criteria::should_archive`), and in confirm mode pipes each
qualifying message through the external `formail` filter into a shared
archive sink, deleting it from the store only after a successful write.

Modelling conventions:
- I/O outcomes (file open, formail launch and exit status, sink write,
  store delete) are inputs carried by the `RawMail` environment record or
  by the `Env` record, since the Rust code observes them as `Result`s.
- Machine integers become `Nat`/`Int`; the `u64` seconds arithmetic in
  `Criteria::new` is assumed not to overflow (ages near 2^64 seconds are
  out of scope).
- Side effects on the sink and the store are recorded as an explicit
  event trace (`Event`), in the order the corresponding calls are issued.
- Panics (`expect`) and fatal `?` propagation in `main` both end the run
  with a nonzero exit; the model collapses them into `RunResult.fatal`.
-/

/-- Open flags passed to `OpenOptions` when the archive file is opened
(`src/main.rs` lines 70-76). -/
structure OpenFlags where
  readFlag : Bool
  writeFlag : Bool
  create : Bool
  truncate : Bool
  append : Bool
deriving DecidableEq, Repr

/-- The exact flag set the Rust code uses: write/create/append on,
read/truncate off. -/
def fileOpenFlags : OpenFlags :=
  { readFlag := false, writeFlag := true, create := true,
    truncate := false, append := true }

/-- Index of the last `.` in a character list (first position scanning from
the right), or `none` when the list has no dot. -/
def lastDotAux : List Char → Nat → Option Nat
  | [], _ => none
  | c :: rest, i =>
    match lastDotAux rest (i + 1) with
    | some j => some j
    | none => if c = '.' then some i else none

/-- Rust `Path::extension` applied to a file name `s`: the portion after the
last `.`, or `none` when there is no dot, when the name is `..`, or when the
only dot is the leading character (so the stem before the dot is empty). -/
def extension (s : String) : Option String :=
  if s = ".." then none
  else
    match lastDotAux s.data 0 with
    | none => none
    | some 0 => none
    | some (i + 1) => some (String.mk (s.data.drop (i + 2)))

/-- The archive destination built by `Opts::destination`: either the
discarding sink (`io::sink()`, for `--remove`) or the archive file, with
the open flags used and whether writes go through a `GzEncoder`. -/
inductive Dest where
  | sink : Dest
  | file (flags : OpenFlags) (gzip : Bool) : Dest
deriving DecidableEq, Repr

/-- Command-line options of the tool (`struct Opts`). `maildirExists`
stands for the `self.maildir.is_dir()` probe done by `Opts::check`;
`archive` holds the file-name component of the archive path. -/
structure Opts where
  maildirExists : Bool
  archive : Option String
  remove : Bool
  confirm : Bool
  includeNew : Bool
  age : Nat
deriving DecidableEq, Repr

/-- `Opts::check`: the maildir must exist, and exactly one of
`--archive`/`--remove` must be given. -/
def Opts.check (o : Opts) : Except Unit Unit :=
  if o.maildirExists then
    if xor o.archive.isSome o.remove then Except.ok () else Except.error ()
  else Except.error ()

/-- `Opts::destination`: `io::sink()` under `--remove`; otherwise open the
archive file (append, create, no truncate) and wrap it in a gzip encoder
exactly when `Path::extension` of the file name is `gz`. `openOk` is the
outcome of the `OpenOptions::open` call; the `none` archive branch models
the `expect` panic, unreachable after a successful `check`. -/
def Opts.destination (o : Opts) (openOk : Bool) : Except Unit Dest :=
  if o.remove then Except.ok Dest.sink
  else
    match o.archive with
    | none => Except.error ()
    | some f =>
      if openOk then Except.ok (Dest.file fileOpenFlags (extension f == some "gz"))
      else Except.error ()

/-- The retention criteria (`struct Criteria`): cutoff timestamp in seconds
since the epoch and the seen requirement. -/
structure Criteria where
  before : Int
  must_seen : Bool
deriving DecidableEq, Repr

/-- `Criteria::new`: `before = now - 3600 * 24 * age` seconds since the
epoch. `now` is the current time in whole seconds since the epoch. When the
subtraction lands before the epoch, `duration_since(UNIX_EPOCH).expect(..)`
panics: modelled as `none`. -/
def Criteria.new (now : Nat) (age : Nat) (must_seen : Bool) : Option Criteria :=
  if 3600 * 24 * age ≤ now then
    some { before := ((now - 3600 * 24 * age : Nat) : Int), must_seen }
  else none

/-- Resolved metadata of one message (`struct MailInfo`). -/
structure MailInfo where
  subject : String
  date : String
  date_resolved : Int
  id : String
  path : String
  seen : Bool
  flagged : Bool
deriving DecidableEq, Repr

/-- `Criteria::should_archive`: old enough, seen when required, and not
flagged. -/
def Criteria.should_archive (c : Criteria) (mail : MailInfo) : Bool :=
  let old : Bool := decide (mail.date_resolved ≤ c.before)
  old && (!c.must_seen || mail.seen) && !mail.flagged

/-- Environment of one raw message as the store hands it over, together
with the I/O outcomes the pipeline will observe for it: the store flags,
the result of `mail.date()` (`none` = broken `Date` header), whether
`mail.parsed()` succeeds, the optional `Date`/`Subject` header values, the
identity and path, and the outcomes of `File::open`, the `formail` launch,
its exit status, the bytes it produces, the sink write, and the store
delete. -/
structure RawMail where
  seen : Bool
  flagged : Bool
  dateParse : Option Int
  parseOk : Bool
  headerDate : Option String
  headerSubject : Option String
  id : String
  path : String
  openOk : Bool
  formailLaunchOk : Bool
  formailExitOk : Bool
  formailOut : List Nat
  writeOk : Bool
  deleteOk : Bool
deriving DecidableEq, Repr

/-- `MailInfo::new`: flags are read infallibly, a broken date is a hard
error, a failed envelope parse is a hard error, missing `Date`/`Subject`
headers default to the empty string. -/
def MailInfo.new (m : RawMail) : Except Unit MailInfo :=
  match m.dateParse with
  | none => Except.error ()
  | some d =>
    if m.parseOk then
      Except.ok
        { subject := m.headerSubject.getD ""
          date := m.headerDate.getD ""
          date_resolved := d
          id := m.id
          path := m.path
          seen := m.seen
          flagged := m.flagged }
    else Except.error ()

/-- Externally visible calls the pipeline issues for a message: running the
`formail` filter on its bytes, a successful sink write of the filtered
bytes, and the store deletion request. -/
inductive Event where
  | formailRun (id : String) : Event
  | write (id : String) (bytes : List Nat) : Event
  | delete (id : String) : Event
deriving DecidableEq, Repr

/-- `MailInfo::archive`: open the message file, run `formail -I "Status: RO"`
on it, require a successful exit, then `write_all` the captured output to
the sink. Returns the error/success outcome together with the calls issued.
A failed `write_all` produces no `Event.write` (only successful writes are
recorded). -/
def archiveStep (m : RawMail) : Except Unit Unit × List Event :=
  if m.openOk then
    if m.formailLaunchOk then
      if m.formailExitOk then
        if m.writeOk then (Except.ok (), [Event.formailRun m.id, Event.write m.id m.formailOut])
        else (Except.error (), [Event.formailRun m.id])
      else (Except.error (), [Event.formailRun m.id])
    else (Except.error (), [Event.formailRun m.id])
  else (Except.error (), [])

/-- The four run counters of `main`. -/
structure Counters where
  archived : Nat
  kept : Nat
  parse_err : Nat
  move_err : Nat
deriving DecidableEq, Repr

/-- Counters at the start of the run. -/
def Counters.zero : Counters := ⟨0, 0, 0, 0⟩

/-- The body of the `for mail in mails` loop of `main` for one traversal
item. `none` models an `Err` item from the maildir iterator (which lands in
the same `Err` branch as a parse failure). Returns the updated counters and
the calls issued for this message. -/
def processMail (c : Criteria) (confirm : Bool) (entry : Option RawMail)
    (cnt : Counters) : Counters × List Event :=
  match entry with
  | none => ({ cnt with parse_err := cnt.parse_err + 1 }, [])
  | some m =>
    match MailInfo.new m with
    | Except.error _ => ({ cnt with parse_err := cnt.parse_err + 1 }, [])
    | Except.ok mail =>
      if c.should_archive mail then
        if confirm then
          match archiveStep m with
          | (Except.ok _, evs) =>
            let evs := evs ++ [Event.delete mail.id]
            if m.deleteOk then ({ cnt with archived := cnt.archived + 1 }, evs)
            else ({ cnt with move_err := cnt.move_err + 1 }, evs)
          | (Except.error _, evs) =>
            ({ cnt with move_err := cnt.move_err + 1 }, evs)
        else (cnt, [])
      else ({ cnt with kept := cnt.kept + 1 }, [])

/-- The traversal loop: fold `processMail` over the items, concatenating
the issued calls into one run trace; each event is tagged with the index of
the traversal item that issued it. -/
def runAux (c : Criteria) (confirm : Bool) :
    List (Option RawMail) → Counters → List (Nat × Event) → Nat →
      Counters × List (Nat × Event)
  | [], cnt, tr, _ => (cnt, tr)
  | e :: rest, cnt, tr, i =>
    let r := processMail c confirm e cnt
    runAux c confirm rest r.1 (tr ++ r.2.map (fun ev => (i, ev))) (i + 1)

/-- Whole-run traversal starting from zero counters and an empty trace. -/
def runMails (c : Criteria) (confirm : Bool) (entries : List (Option RawMail)) :
    Counters × List (Nat × Event) :=
  runAux c confirm entries Counters.zero [] 0

/-- Run-level inputs that are not command-line options: whether the archive
file opens, the current time in seconds since the epoch, and the traversal
items (already chained with the `new` subdirectory when `--new` is given). -/
structure Env where
  destOpenOk : Bool
  now : Nat
  entries : List (Option RawMail)

/-- Outcome of `main`: a fatal setup error or panic (nonzero exit before
the loop runs), or a completed run with its final counters and trace
(process exits zero). -/
inductive RunResult where
  | fatal : RunResult
  | done (cnt : Counters) (trace : List (Nat × Event)) : RunResult
deriving DecidableEq, Repr

/-- `main`: check options, open the destination, build the criteria with
`must_seen = !opts.new`, run the loop, print the summary and exit zero. -/
def mainModel (o : Opts) (env : Env) : RunResult :=
  match o.check with
  | Except.error _ => RunResult.fatal
  | Except.ok _ =>
    match o.destination env.destOpenOk with
    | Except.error _ => RunResult.fatal
    | Except.ok _ =>
      match Criteria.new env.now o.age (!o.includeNew) with
      | none => RunResult.fatal
      | some c =>
        let r := runMails c o.confirm env.entries
        RunResult.done r.1 r.2

/-- The spec phrases the compression trigger as: the target filename ends
with the suffix ".gz". Stated from the spec words, to compare with the
`extension` computation done by the code. -/
def endsWithGzSpec (s : String) : Bool := s.data.reverse.take 3 == ['z', 'g', '.']

/-- C1: `should_archive` holds exactly when the resolved timestamp is at
most the cutoff (older-or-equal), the message is seen whenever seen-ness is
required, and the message is not flagged; in particular a flagged message
is never retired. -/
theorem C1_should_archive_characterization (c : Criteria) (m : MailInfo) :
    c.should_archive m = true ↔
      (m.date_resolved ≤ c.before ∧ (c.must_seen = true → m.seen = true) ∧
        m.flagged = false) := by
  unfold Criteria.should_archive
  cases hms : c.must_seen <;> cases hs : m.seen <;> cases hf : m.flagged <;>
    simp [decide_eq_true_iff]

theorem C1_witness :
    Criteria.should_archive { before := 100, must_seen := true }
      { subject := "s", date := "d", date_resolved := 50, id := "i",
        path := "p", seen := true, flagged := false } = true :=
  (C1_should_archive_characterization _ _).mpr (by refine ⟨by norm_num, fun _ => rfl, rfl⟩)

/-- C10: `Criteria::new` panics (models as `none`) exactly when
`age * 86400` seconds exceeds the current time since the epoch; whenever
construction succeeds, the cutoff is a non-negative number of seconds
since the epoch. -/
theorem C10_cutoff_nonneg (now age : Nat) (ms : Bool) :
    (Criteria.new now age ms = none ↔ now < 86400 * age) ∧
    (∀ c, Criteria.new now age ms = some c → 0 ≤ c.before) := by
  unfold Criteria.new
  constructor
  · split <;> rename_i h <;> simp <;> omega
  · intro c hc
    split at hc
    · cases hc.symm
      exact Int.natCast_nonneg _
    · cases hc

theorem C10_witness :
    (Criteria.new 0 1 true = none) ∧
      ∀ c, Criteria.new 1000000 0 false = some c → 0 ≤ c.before :=
  ⟨(C10_cutoff_nonneg 0 1 true).1.mpr (by norm_num),
   fun c hc => (C10_cutoff_nonneg 1000000 0 false).2 c hc⟩

/-- A concrete raw message that qualifies for retirement: old, seen, not
flagged, with every I/O step succeeding. Used by witnesses. -/
def sampleMail : RawMail :=
  { seen := true, flagged := false, dateParse := some 50, parseOk := true,
    headerDate := some "D", headerSubject := some "S", id := "m1", path := "p1",
    openOk := true, formailLaunchOk := true, formailExitOk := true,
    formailOut := [1, 2], writeOk := true, deleteOk := true }

/-- The `MailInfo` that `sampleMail` resolves to. -/
def sampleInfo : MailInfo :=
  { subject := "S", date := "D", date_resolved := 50, id := "m1",
    path := "p1", seen := true, flagged := false }

/-- A criteria value with cutoff 100 and the seen requirement on. -/
def sampleCriteria : Criteria := { before := 100, must_seen := true }

/-- C4: in dry-run mode (confirm not set), a message that qualifies for
retirement triggers no formail run, no sink write and no store deletion,
and leaves every counter unchanged: the decision is only logged. -/
theorem C4_dry_run_no_effect (c : Criteria) (m : RawMail) (mi : MailInfo)
    (cnt : Counters) (hres : MailInfo.new m = Except.ok mi)
    (hq : c.should_archive mi = true) :
    processMail c false (some m) cnt = (cnt, []) := by
  simp [processMail, hres, hq]

theorem C4_witness :
    processMail sampleCriteria false (some sampleMail) Counters.zero =
      (Counters.zero, []) :=
  C4_dry_run_no_effect sampleCriteria sampleMail sampleInfo Counters.zero
    rfl (by decide)

/-- C6: when the formail filter fails to launch or exits unsuccessfully for
a qualifying message in confirm mode, the only call issued for the message
is the formail invocation itself: nothing is written to the sink, no
deletion is requested (the message remains in the store), and exactly the
move-error counter is incremented. -/
theorem C6_formail_failure (c : Criteria) (m : RawMail) (mi : MailInfo)
    (cnt : Counters) (hres : MailInfo.new m = Except.ok mi)
    (hq : c.should_archive mi = true) (hopen : m.openOk = true)
    (hfail : m.formailLaunchOk = false ∨ m.formailExitOk = false) :
    processMail c true (some m) cnt =
      ({ cnt with move_err := cnt.move_err + 1 }, [Event.formailRun m.id]) := by
  rcases hfail with hl | he
  · simp [processMail, hres, hq, archiveStep, hopen, hl]
  · cases hl : m.formailLaunchOk
    · simp [processMail, hres, hq, archiveStep, hopen, hl]
    · simp [processMail, hres, hq, archiveStep, hopen, hl, he]

theorem C6_witness :
    processMail sampleCriteria true
      (some { sampleMail with formailExitOk := false }) Counters.zero =
      ({ Counters.zero with move_err := 1 }, [Event.formailRun "m1"]) :=
  C6_formail_failure sampleCriteria { sampleMail with formailExitOk := false }
    sampleInfo Counters.zero rfl (by decide) rfl (Or.inr rfl)

/-- C7: resolving a message with an unparseable date is a hard error; when
the date parses and the envelope parses, resolution succeeds with the
`Subject` and `Date` headers defaulting to the empty string when absent;
and any resolution failure makes the pipeline increment exactly the
parse-error counter, issuing no calls, so the message is neither archived
nor counted as kept. -/
theorem C7_resolution (m : RawMail) (c : Criteria) (cf : Bool) (cnt : Counters) :
    (m.dateParse = none → MailInfo.new m = Except.error ()) ∧
    (∀ d, m.dateParse = some d → m.parseOk = true →
      MailInfo.new m = Except.ok
        { subject := m.headerSubject.getD "", date := m.headerDate.getD "",
          date_resolved := d, id := m.id, path := m.path, seen := m.seen,
          flagged := m.flagged }) ∧
    (MailInfo.new m = Except.error () →
      processMail c cf (some m) cnt =
        ({ cnt with parse_err := cnt.parse_err + 1 }, [])) := by
  refine ⟨fun hd => ?_, fun d hd hp => ?_, fun herr => ?_⟩
  · simp [MailInfo.new, hd]
  · simp [MailInfo.new, hd, hp]
  · simp [processMail, herr]

theorem C7_witness :
    MailInfo.new { sampleMail with dateParse := none } = Except.error () ∧
    MailInfo.new { sampleMail with headerSubject := none } =
      Except.ok { sampleInfo with subject := "" } ∧
    processMail sampleCriteria true (some { sampleMail with dateParse := none })
      Counters.zero = ({ Counters.zero with parse_err := 1 }, []) :=
  ⟨(C7_resolution { sampleMail with dateParse := none } sampleCriteria true
      Counters.zero).1 rfl,
   (C7_resolution { sampleMail with headerSubject := none } sampleCriteria true
      Counters.zero).2.1 50 rfl rfl,
   (C7_resolution { sampleMail with dateParse := none } sampleCriteria true
      Counters.zero).2.2 rfl⟩

/-- Is an event the store deletion call? -/
def isDeleteEv : Event → Bool
  | Event.delete _ => true
  | _ => false

/-- The subsequence of run-trace events issued for traversal item `k`, in
issue order. -/
def blockOf (tr : List (Nat × Event)) (k : Nat) : List Event :=
  (tr.filter (fun p => p.1 == k)).map Prod.snd

/-- The three call patterns one message can produce: nothing, a formail run
whose pipeline then failed, or the full formail-write-delete sequence for a
single identity. -/
def MsgShape (evs : List Event) : Prop :=
  evs = [] ∨ (∃ i, evs = [Event.formailRun i]) ∨
    (∃ i b, evs = [Event.formailRun i, Event.write i b, Event.delete i])

theorem archiveStep_cases (m : RawMail) :
    archiveStep m =
        (Except.ok (), [Event.formailRun m.id, Event.write m.id m.formailOut]) ∨
      (∃ evs, archiveStep m = (Except.error (), evs) ∧
        (evs = [] ∨ evs = [Event.formailRun m.id])) := by
  unfold archiveStep
  cases m.openOk <;> cases m.formailLaunchOk <;> cases m.formailExitOk <;>
    cases m.writeOk <;> simp

theorem processMail_shape (c : Criteria) (cf : Bool) (e : Option RawMail)
    (cnt : Counters) : MsgShape (processMail c cf e cnt).2 := by
  cases e with
  | none => simp [processMail, MsgShape]
  | some m =>
    cases hres : MailInfo.new m with
    | error u => simp [processMail, hres, MsgShape]
    | ok mail =>
      have hid : mail.id = m.id := by
        unfold MailInfo.new at hres
        cases hd : m.dateParse with
        | none => rw [hd] at hres; cases hres
        | some d =>
          rw [hd] at hres
          cases hp : m.parseOk <;> rw [hp] at hres
          · cases hres
          · simp at hres
            rw [← hres]
      by_cases hq : c.should_archive mail = true
      · cases cf with
        | false => simp [processMail, hres, hq, MsgShape]
        | true =>
          rcases archiveStep_cases m with hok | ⟨evs, herr, hevs⟩
          · cases hdel : m.deleteOk <;>
              simp [processMail, hres, hq, hok, hdel, MsgShape, hid]
          · rcases hevs with h0 | h0 <;>
              simp [processMail, hres, hq, herr, h0, MsgShape]
      · simp [processMail, hres, hq, MsgShape]

theorem blockOf_append (tr l : List (Nat × Event)) (k : Nat) :
    blockOf (tr ++ l) k = blockOf tr k ++ blockOf l k := by
  simp [blockOf, List.filter_append]

theorem blockOf_map_tag (evs : List Event) (i k : Nat) :
    blockOf (evs.map (fun ev => (i, ev))) k = if k = i then evs else [] := by
  induction evs with
  | nil => simp [blockOf]
  | cons a l ih =>
    by_cases h : k = i
    · subst h
      simpa [blockOf, List.filter_cons] using ih
    · have hne : (i == k) = false := by
        simp only [beq_eq_false_iff_ne, ne_eq]
        omega
      simpa [blockOf, List.filter_cons, hne, h] using ih

theorem runAux_shape (c : Criteria) (cf : Bool) (entries : List (Option RawMail)) :
    ∀ (cnt : Counters) (tr : List (Nat × Event)) (i : Nat),
      (∀ k, i ≤ k → blockOf tr k = []) →
      (∀ k, MsgShape (blockOf tr k)) →
      ∀ k, MsgShape (blockOf (runAux c cf entries cnt tr i).2 k) := by
  induction entries with
  | nil =>
    intro cnt tr i h1 h2 k
    simpa [runAux] using h2 k
  | cons e rest ih =>
    intro cnt tr i h1 h2 k
    show MsgShape (blockOf (runAux c cf rest _ _ (i + 1)).2 k)
    apply ih
    · intro k hk
      rw [blockOf_append, blockOf_map_tag]
      rw [h1 k (Nat.le_of_succ_le hk)]
      have : ¬ k = i := by omega
      simp [this]
    · intro k
      rw [blockOf_append, blockOf_map_tag]
      by_cases hk : k = i
      · subst hk
        rw [h1 k (Nat.le_refl k)]
        simpa using processMail_shape c cf e cnt
      · simpa [hk] using h2 k

/-- C2: in any run, the events issued for one traversal item form one of
the three allowed patterns; consequently at most one deletion call is
issued per message, and a deletion for identity `id` is always preceded,
within the events of that message, by a successful sink write of the
bytes of that identity. -/
theorem C2_delete_once_after_write (c : Criteria) (cf : Bool)
    (entries : List (Option RawMail)) (k : Nat) :
    ((blockOf (runMails c cf entries).2 k).countP isDeleteEv ≤ 1) ∧
    (∀ l₁ i l₂, blockOf (runMails c cf entries).2 k = l₁ ++ Event.delete i :: l₂ →
      ∃ b, Event.write i b ∈ l₁) := by
  have hs : MsgShape (blockOf (runMails c cf entries).2 k) := by
    apply runAux_shape c cf entries Counters.zero [] 0
    · intro k hk
      simp [blockOf]
    · intro k
      simp [blockOf, MsgShape]
  rcases hs with h | ⟨i, h⟩ | ⟨i, b, h⟩ <;> rw [h]
  · refine ⟨by simp [List.countP, List.countP.go], fun l₁ i l₂ he => ?_⟩
    exact absurd he (by simp)
  · refine ⟨by simp [List.countP, List.countP.go, isDeleteEv],
      fun l₁ j l₂ he => ?_⟩
    rcases l₁ with _ | ⟨a, l₁⟩
    · simp at he
    · rcases l₁ with _ | ⟨a2, l₁⟩ <;> simp at he
  · refine ⟨by simp [List.countP, List.countP.go, isDeleteEv],
      fun l₁ j l₂ he => ?_⟩
    rcases l₁ with _ | ⟨a, l₁⟩
    · simp at he
    · rcases l₁ with _ | ⟨a2, l₁⟩
      · simp at he
      · rcases l₁ with _ | ⟨a3, l₁⟩
        · simp at he
          obtain ⟨ha, ha2, hij, -⟩ := he
          refine ⟨b, ?_⟩
          rw [← hij, ← ha2]
          simp
        · simp at he

theorem C2_witness :
    ((blockOf (runMails sampleCriteria true [some sampleMail]).2 0).countP
        isDeleteEv ≤ 1) ∧
    (∃ b, Event.write "m1" b ∈
        [Event.formailRun "m1", Event.write "m1" [1, 2]]) :=
  ⟨(C2_delete_once_after_write sampleCriteria true [some sampleMail] 0).1,
   (C2_delete_once_after_write sampleCriteria true [some sampleMail] 0).2
     [Event.formailRun "m1", Event.write "m1" [1, 2]] "m1" [] (by rfl)⟩

/-- Options of a run that archives to a plain file named `arch` in confirm
mode. -/
def cexOpts : Opts :=
  { maildirExists := true, archive := some "arch", remove := false,
    confirm := true, includeNew := false, age := 1 }

/-- A run environment whose first message qualifies but fails at the sink
write, while the second message is too young and is kept. -/
def cexEnv : Env :=
  { destOpenOk := true, now := 1000000000,
    entries := [some { sampleMail with writeOk := false },
                some { sampleMail with id := "m2", dateParse := some 2000000000 }] }

/-- C3 counterexample: a failed sink write does not abort the run. The
first message fails its `write_all`, yet the run completes (exit zero),
records the failure as a move error, and still processes the second
message (kept = 1). Only the inability-to-open half of the claim holds. -/
theorem C3_counterexample :
    mainModel cexOpts cexEnv =
      RunResult.done { archived := 0, kept := 1, parse_err := 0, move_err := 1 }
        [(0, Event.formailRun "m1")] ∧
    mainModel cexOpts cexEnv ≠ RunResult.fatal := by
  refine ⟨by rfl, ?_⟩
  intro h
  rw [show mainModel cexOpts cexEnv =
      RunResult.done { archived := 0, kept := 1, parse_err := 0, move_err := 1 }
        [(0, Event.formailRun "m1")] from rfl] at h
  cases h

/-- C3 amended: inability to open the archive target is a hard error that
aborts the run before any message is processed; a failed sink write,
however, is a per-message move error: the run still completes over all
entries, and the failing message only increments the move-error counter. -/
theorem C3_open_fatal_write_per_message (o : Opts) (env : Env) :
    (o.check = Except.ok () → o.remove = false → env.destOpenOk = false →
      mainModel o env = RunResult.fatal) ∧
    (∀ c, o.check = Except.ok () →
      (∃ d, o.destination env.destOpenOk = Except.ok d) →
      Criteria.new env.now o.age (!o.includeNew) = some c →
      mainModel o env = RunResult.done (runMails c o.confirm env.entries).1
        (runMails c o.confirm env.entries).2) ∧
    (∀ c m mi cnt, MailInfo.new m = Except.ok mi → c.should_archive mi = true →
      m.openOk = true → m.formailLaunchOk = true → m.formailExitOk = true →
      m.writeOk = false →
      processMail c true (some m) cnt =
        ({ cnt with move_err := cnt.move_err + 1 }, [Event.formailRun m.id])) := by
  refine ⟨fun hck hrm hop => ?_, fun c hck hd hcrit => ?_,
    fun c m mi cnt h1 h2 h3 h4 h5 h6 => ?_⟩
  · have hsome : ∃ f, o.archive = some f := by
      unfold Opts.check at hck
      split at hck
      · split at hck
        · rename_i hx
          rw [hrm] at hx
          simp at hx
          exact Option.isSome_iff_exists.mp hx
        · simp at hck
      · simp at hck
    obtain ⟨f, hf⟩ := hsome
    simp [mainModel, hck, Opts.destination, hrm, hf, hop]
  · obtain ⟨d, hd⟩ := hd
    simp [mainModel, hck, hd, hcrit]
  · simp [processMail, h1, h2, archiveStep, h3, h4, h5, h6]

theorem C3_witness :
    mainModel cexOpts { cexEnv with destOpenOk := false } = RunResult.fatal :=
  (C3_open_fatal_write_per_message cexOpts
    { cexEnv with destOpenOk := false }).1 rfl rfl rfl

/-- C5: when setup succeeds (options check out, the destination opens, the
criteria build), the run always completes with a summary and a zero exit,
whatever the per-message outcomes; a fatal exit can only come from one of
those three setup steps; and each per-message failure (resolution failure
or archive-step failure) is converted into one counter increment. -/
theorem C5_per_message_errors_isolated (o : Opts) (env : Env) :
    ((∃ c, o.check = Except.ok () ∧
        (∃ d, o.destination env.destOpenOk = Except.ok d) ∧
        Criteria.new env.now o.age (!o.includeNew) = some c) →
      ∃ cnt tr, mainModel o env = RunResult.done cnt tr) ∧
    (mainModel o env = RunResult.fatal →
      o.check = Except.error () ∨
        o.destination env.destOpenOk = Except.error () ∨
        Criteria.new env.now o.age (!o.includeNew) = none) ∧
    (∀ c cf m cnt, MailInfo.new m = Except.error () →
      processMail c cf (some m) cnt =
        ({ cnt with parse_err := cnt.parse_err + 1 }, [])) ∧
    (∀ c m mi cnt evs, MailInfo.new m = Except.ok mi →
      c.should_archive mi = true → archiveStep m = (Except.error (), evs) →
      processMail c true (some m) cnt =
        ({ cnt with move_err := cnt.move_err + 1 }, evs)) := by
  refine ⟨fun h => ?_, fun h => ?_, fun c cf m cnt h1 => ?_,
    fun c m mi cnt evs h1 h2 h3 => ?_⟩
  · obtain ⟨c, hck, ⟨d, hd⟩, hcrit⟩ := h
    refine ⟨(runMails c o.confirm env.entries).1,
      (runMails c o.confirm env.entries).2, ?_⟩
    simp [mainModel, hck, hd, hcrit]
  · unfold mainModel at h
    cases hck : o.check with
    | error u => cases u; exact Or.inl rfl
    | ok u =>
      cases u
      rw [hck] at h
      cases hd : o.destination env.destOpenOk with
      | error v => cases v; exact Or.inr (Or.inl rfl)
      | ok d =>
        rw [hd] at h
        cases hc : Criteria.new env.now o.age (!o.includeNew) with
        | none => exact Or.inr (Or.inr rfl)
        | some c =>
          rw [hc] at h
          simp at h
  · simp [processMail, h1]
  · simp [processMail, h1, h2, h3]

theorem C5_witness :
    ∃ cnt tr, mainModel cexOpts cexEnv = RunResult.done cnt tr :=
  (C5_per_message_errors_isolated cexOpts cexEnv).1
    ⟨{ before := 999913600, must_seen := true }, rfl,
      ⟨Dest.file fileOpenFlags false, rfl⟩, rfl⟩

/-- C8: the criteria are built once for the run, with the cutoff equal to
the current time minus `age` times 86400 seconds, and with the seen
requirement holding exactly when the run does not include unread ("new")
messages; the whole traversal then runs against that one value. -/
theorem C8_criteria_construction (o : Opts) (env : Env)
    (hage : 3600 * 24 * o.age ≤ env.now) (hck : o.check = Except.ok ())
    (hd : ∃ d, o.destination env.destOpenOk = Except.ok d) :
    Criteria.new env.now o.age (!o.includeNew) =
      some { before := ((env.now - 86400 * o.age : Nat) : Int),
             must_seen := !o.includeNew } ∧
    mainModel o env =
      RunResult.done
        (runMails { before := ((env.now - 86400 * o.age : Nat) : Int),
                    must_seen := !o.includeNew } o.confirm env.entries).1
        (runMails { before := ((env.now - 86400 * o.age : Nat) : Int),
                    must_seen := !o.includeNew } o.confirm env.entries).2 := by
  have hcrit : Criteria.new env.now o.age (!o.includeNew) =
      some { before := ((env.now - 86400 * o.age : Nat) : Int),
             must_seen := !o.includeNew } := by
    unfold Criteria.new
    rw [if_pos hage]
  refine ⟨hcrit, ?_⟩
  obtain ⟨d, hd⟩ := hd
  simp [mainModel, hck, hd, hcrit]

theorem C8_witness :
    Criteria.new cexEnv.now cexOpts.age (!cexOpts.includeNew) =
      some { before := ((cexEnv.now - 86400 * cexOpts.age : Nat) : Int),
             must_seen := !cexOpts.includeNew } :=
  (C8_criteria_construction cexOpts cexEnv (by norm_num [cexOpts, cexEnv]) rfl
    ⟨Dest.file fileOpenFlags false, rfl⟩).1

/-- Options of a run archiving to a file whose whole name is `.gz`. -/
def gzOpts : Opts :=
  { maildirExists := true, archive := some ".gz", remove := false,
    confirm := false, includeNew := false, age := 30 }

/-- C9 counterexample: the file name `.gz` ends with the suffix ".gz" in
the spec sense, yet the code builds an uncompressed sink for it, because
Rust `Path::extension` returns nothing for a name whose only dot is the
leading character. -/
theorem C9_counterexample :
    endsWithGzSpec ".gz" = true ∧
    Opts.destination gzOpts true = Except.ok (Dest.file fileOpenFlags false) :=
  ⟨by decide, by rfl⟩

/-- C9 amended: under `--remove` the destination is the discarding sink;
otherwise the archive file is opened in append mode, created if absent and
never truncated, and writes are gzip-wrapped exactly when the
`Path::extension` of the file name is `gz` (the portion after the last
dot, absent when the only dot of the name is its leading character, as
for the name `.gz`). -/
theorem C9_destination_variants (o : Opts) :
    (o.remove = true → ∀ ok, o.destination ok = Except.ok Dest.sink) ∧
    (∀ f, o.remove = false → o.archive = some f →
      o.destination true =
        Except.ok (Dest.file fileOpenFlags (extension f == some "gz")) ∧
      o.destination false = Except.error ()) ∧
    fileOpenFlags.append = true ∧ fileOpenFlags.create = true ∧
    fileOpenFlags.truncate = false := by
  refine ⟨fun hr ok => ?_, fun f hr hf => ?_, rfl, rfl, rfl⟩
  · simp [Opts.destination, hr]
  · simp [Opts.destination, hr, hf]

theorem C9_witness :
    Opts.destination gzOpts true =
      Except.ok (Dest.file fileOpenFlags (extension ".gz" == some "gz")) :=
  ((C9_destination_variants gzOpts).2.1 ".gz" rfl rfl).1
